import Mathlib

/-!
# Verification of the Atomic Habits tracker core (`src/core/AtomicHabits.js`)

Shallow embedding of the `Habit` entity and the `HabitTracker` repository.

Modelling conventions:
* Instants (`new Date()`, timestamps) are natural numbers of milliseconds since
  the Unix epoch, in UTC (the code derives calendar days from `toISOString`,
  i.e. the UTC date portion).  A calendar day (`YYYY-MM-DD` string) is modelled
  by its day number `ms / 86400000`.
* JS numbers that the code only ever uses as non-negative integers
  (`streak`, `longestStreak`, `difficulty`, `targetCount`, `count`) are `Nat`;
  day differences computed with `Math.floor((a - b) / 86400000)` are modelled
  in `Int` because they can be negative.
* Functions that read the ambient clock (`new Date()` inside a method) take
  the current instant (or current day) as an explicit parameter.
* `Habit.getCompletionRate` divides by its `days` argument; in JS a zero
  denominator yields the non-finite floats `NaN`/`Infinity`.  The embedding
  returns `Option ℚ`, with `none` standing for a non-finite result.
-/

/-- Milliseconds in one calendar day (`1000 * 60 * 60 * 24`). -/
def dayMs : ℕ := 86400000

/-- The UTC calendar day number of an instant: the `YYYY-MM-DD` part of
`date.toISOString()`, identified with `ms / 86400000`. -/
def dayOf (ms : ℕ) : ℕ := ms / dayMs

/-- One completion record `{date, timestamp, count}` pushed by
`Habit.complete`: `date` is the calendar-day string (modelled by its
day number), `timestamp` the completing instant, `count` always 1. -/
structure Completion where
  date : ℕ
  timestamp : ℕ
  count : ℕ
deriving DecidableEq, Repr, Inhabited

/-- The `Habit` entity: the fields assigned by the constructor. -/
structure Habit where
  id : String
  name : String
  description : String
  category : String
  cue : String
  craving : String
  response : String
  reward : String
  difficulty : ℕ
  frequency : String
  targetCount : ℕ
  streak : ℕ
  longestStreak : ℕ
  completions : List Completion
  isActive : Bool
  createdAt : ℕ
  updatedAt : ℕ
deriving DecidableEq, Repr

/-- The configuration object accepted by the `Habit` constructor: every field
is optional (`none` models an absent/`undefined` property, which makes the
JS destructuring default fire).  `id := some ""` models a falsy string id. -/
structure HabitConfig where
  id : Option String
  name : Option String
  description : Option String
  category : Option String
  cue : Option String
  craving : Option String
  response : Option String
  reward : Option String
  difficulty : Option ℕ
  frequency : Option String
  targetCount : Option ℕ
  streak : Option ℕ
  longestStreak : Option ℕ
  completions : Option (List Completion)
  isActive : Option Bool
  createdAt : Option ℕ
  updatedAt : Option ℕ
deriving DecidableEq, Repr

/-- The `Habit` constructor.  `now` is the current instant (default for
`createdAt`/`updatedAt`); `freshId` is the result of `generateId()` (a
non-deterministic string in JS, passed in explicitly here), used when the
supplied id is absent or falsy (`this.id = id || this.generateId()`). -/
def Habit.fromConfig (now : ℕ) (freshId : String) (cfg : HabitConfig) : Habit where
  id := match cfg.id with
        | none => freshId
        | some s => if s = "" then freshId else s
  name := cfg.name.getD ""
  description := cfg.description.getD ""
  category := cfg.category.getD "general"
  cue := cfg.cue.getD ""
  craving := cfg.craving.getD ""
  response := cfg.response.getD ""
  reward := cfg.reward.getD ""
  difficulty := cfg.difficulty.getD 1
  frequency := cfg.frequency.getD "daily"
  targetCount := cfg.targetCount.getD 1
  streak := cfg.streak.getD 0
  longestStreak := cfg.longestStreak.getD 0
  completions := cfg.completions.getD []
  isActive := cfg.isActive.getD true
  createdAt := cfg.createdAt.getD now
  updatedAt := cfg.updatedAt.getD now

/-- `isCompletedToday(date)`: some completion record's day string equals the
day string of `date`.  Parametrised by the day number directly. -/
def Habit.isCompletedOn (h : Habit) (day : ℕ) : Bool :=
  h.completions.any (fun c => c.date == day)

/-- Insertion step of the stable ascending sort by completion date used to
model `completions.sort((a, b) => new Date(a.date) - new Date(b.date))`. -/
def insertByDate (c : Completion) : List Completion → List Completion
  | [] => [c]
  | d :: ds => if c.date ≤ d.date then c :: d :: ds else d :: insertByDate c ds

/-- Stable ascending sort of completions by calendar day (the comparator
`new Date(a.date) - new Date(b.date)`). -/
def sortByDate (l : List Completion) : List Completion :=
  l.foldr insertByDate []

/-- The backward walk of `updateStreak` over the dates in descending order
(most recent first): run length starting at 1, extended while the adjacent
day difference is exactly 1, stopped at the first other gap. -/
def runLenDesc : List ℕ → ℕ
  | [] => 0
  | [_] => 1
  | a :: b :: rest =>
      if (a : ℤ) - (b : ℤ) = 1 then runLenDesc (b :: rest) + 1 else 1

/-- `Habit.updateStreak()`, parametrised by the current day number `today`
(the code takes `new Date()`; `Math.floor((today - lastCompletion)/86400000)`
equals the calendar-day difference `today - lastDay` for any time of day).
Note the in-place `sort` mutates `completions`, and the empty branch returns
before touching `longestStreak`. -/
def Habit.updateStreak (today : ℕ) (h : Habit) : Habit :=
  if h.completions.isEmpty then { h with streak := 0 }
  else
    let sorted := sortByDate h.completions
    let lastDate : ℕ := (sorted.getLastD default).date
    let daysDiff : ℤ := (today : ℤ) - (lastDate : ℤ)
    let currentStreak : ℕ :=
      if daysDiff ≤ 1 then runLenDesc ((sorted.map Completion.date).reverse) else 0
    { h with completions := sorted,
             streak := currentStreak,
             longestStreak := max h.longestStreak currentStreak }

/-- `Habit.complete(date)`: `nowMs` is the ambient current instant
(`new Date()`, used by `updateStreak` and for `updatedAt`), `instant` the
argument `date`.  Returns the updated habit and the boolean result. -/
def Habit.complete (nowMs instant : ℕ) (h : Habit) : Habit × Bool :=
  let day := dayOf instant
  if h.isCompletedOn day then (h, false)
  else
    let h1 := { h with completions := h.completions ++ [⟨day, instant, 1⟩] }
    let h2 := Habit.updateStreak (dayOf nowMs) h1
    ({ h2 with updatedAt := nowMs }, true)

/-- `Habit.getCompletionRate(days)`: completions whose UTC-midnight instant
lies between `now - days·86400000` and `now`, divided by `days`, times 100.
`none` models the non-finite float produced when `days = 0`. -/
def Habit.getCompletionRate (nowMs days : ℕ) (h : Habit) : Option ℚ :=
  if days = 0 then none
  else
    let inPeriod := h.completions.filter (fun c =>
      decide ((nowMs : ℤ) - (days : ℤ) * (dayMs : ℤ) ≤ (c.date : ℤ) * (dayMs : ℤ)
        ∧ (c.date : ℤ) * (dayMs : ℤ) ≤ (nowMs : ℤ)))
    some (((inPeriod.length : ℚ) / (days : ℚ)) * 100)

/-- `Habit.toJSON()`: the plain record with every field of the habit.  Its
fields coincide with a configuration object in which every property is
present, which is how `fromJSON` consumes it. -/
def Habit.toJSON (h : Habit) : HabitConfig where
  id := some h.id
  name := some h.name
  description := some h.description
  category := some h.category
  cue := some h.cue
  craving := some h.craving
  response := some h.response
  reward := some h.reward
  difficulty := some h.difficulty
  frequency := some h.frequency
  targetCount := some h.targetCount
  streak := some h.streak
  longestStreak := some h.longestStreak
  completions := some h.completions
  isActive := some h.isActive
  createdAt := some h.createdAt
  updatedAt := some h.updatedAt

/-- `Habit.fromJSON(data) = new Habit(data)`: just the constructor. -/
def Habit.fromJSON (now : ℕ) (freshId : String) (data : HabitConfig) : Habit :=
  Habit.fromConfig now freshId data

/-! ## The `HabitTracker` repository -/

/-- The snapshot written by `saveToStorage`: the `[id, habit.toJSON()]` entry
pairs together with the category list. -/
structure StoredData where
  habits : List (String × HabitConfig)
  categories : List String
deriving DecidableEq, Repr

/-- The in-memory state of a `HabitTracker` together with the persisted slot
`localStorage['atomicHabitsTracker']` it writes to.  The `Map` of habits is
modelled as an association list in insertion order (unique keys); `stored` is
the current content of the storage slot (`none` = nothing stored yet). -/
structure TrackerState where
  habits : List (String × Habit)
  categories : List String
  stored : Option StoredData
deriving DecidableEq, Repr

/-- The category seed set installed by the `HabitTracker` constructor. -/
def seedCategories : List String :=
  ["health", "productivity", "learning", "social", "creative", "general"]

/-- `saveToStorage()`: serialize the whole collection (ids with `toJSON`
records) and the categories into the single storage slot. -/
def serializeTracker (t : TrackerState) : StoredData :=
  ⟨t.habits.map (fun p => (p.1, Habit.toJSON p.2)), t.categories⟩

/-- `getAllHabits()`. -/
def TrackerState.getAllHabits (t : TrackerState) : List Habit :=
  t.habits.map Prod.snd

/-- `getActiveHabits()`. -/
def TrackerState.getActiveHabits (t : TrackerState) : List Habit :=
  t.getAllHabits.filter (fun h => h.isActive)

/-- `completeHabit(id, date)`: look the habit up, run `complete`, and on
success store the updated habit back (the JS `Map` already holds the mutated
object) and persist; otherwise return `false` without touching anything. -/
def TrackerState.completeHabit (nowMs instant : ℕ) (id : String)
    (t : TrackerState) : TrackerState × Bool :=
  match t.habits.lookup id with
  | none => (t, false)
  | some h =>
      let res := h.complete nowMs instant
      if res.2 then
        let newHabits := t.habits.map (fun p => if p.1 = id then (p.1, res.1) else p)
        let t' := { t with habits := newHabits }
        ({ t' with stored := some (serializeTracker t') }, true)
      else (t, false)

/-- `getOverallStats()` result record. -/
structure OverallStats where
  totalHabits : ℕ
  completedToday : ℕ
  completionRateToday : ℚ
  averageStreak : ℚ
  longestStreak : ℕ
deriving DecidableEq, Repr

/-- `getOverallStats()`, parametrised by the current day number. -/
def TrackerState.getOverallStats (today : ℕ) (t : TrackerState) : OverallStats :=
  let habits := t.getActiveHabits
  let totalHabits := habits.length
  let completedToday := (habits.filter (fun h => h.isCompletedOn today)).length
  let totalStreaks := (habits.map Habit.streak).sum
  { totalHabits := totalHabits
    completedToday := completedToday
    completionRateToday :=
      if totalHabits > 0 then ((completedToday : ℚ) / (totalHabits : ℚ)) * 100 else 0
    averageStreak :=
      if totalHabits > 0 then (totalStreaks : ℚ) / (totalHabits : ℚ) else 0
    longestStreak := (habits.map Habit.longestStreak).foldr max 0 }

/-! ## Loading from storage

`loadFromStorage` parses the stored JSON text and rebuilds the habit map and
category set inside a `try`/`catch`; the `catch` resets `habits` to an empty
map (categories keep the seed set installed just before).  The parsed JSON
value is modelled by `JVal`; the raw slot by `Option JVal`, where `none`
means `JSON.parse` threw on the stored text. -/

/-- A parsed JSON value (numbers restricted to integers, which covers every
value the tracker itself ever writes). -/
inductive JVal where
  | null
  | bool (b : Bool)
  | num (n : ℤ)
  | str (s : String)
  | arr (xs : List JVal)
  | obj (fields : List (String × JVal))

/-- Property access `v.k`: a field of an object, `undefined` (`none`)
otherwise.  (Accessing a property of the JS value `null` would throw, but the
resulting `catch` state equals the skip state, so `none` is observationally
accurate for `loadFromStorage`.) -/
def JVal.getField : JVal → String → Option JVal
  | .obj fs, k => fs.lookup k
  | _, _ => none

/-- JS truthiness of a parsed JSON value. -/
def JVal.truthy : JVal → Bool
  | .null => false
  | .bool b => b
  | .num n => n != 0
  | .str s => !s.isEmpty
  | .arr _ => true
  | .obj _ => true

/-- Canonical string view of a JSON value, used for map keys and category
labels (the claims never inspect these values; JS would keep the raw value). -/
def JVal.asKey : JVal → String
  | .null => "null"
  | .bool b => toString b
  | .num n => toString n
  | .str s => s
  | .arr _ => "array"
  | .obj _ => "object"

/-- Read one persisted completion record; entries not shaped like a record
are reduced to a default one (their contents are never relevant here). -/
def readCompletion (v : JVal) : Completion :=
  match v.getField "date", v.getField "timestamp", v.getField "count" with
  | some (.num d), some (.num ts), some (.num c) => ⟨d.toNat, ts.toNat, c.toNat⟩
  | _, _, _ => default

/-- Optional string field for the habit configuration: a falsy JSON value
behaves like an absent one for `id` (and the claims never read the other
descriptive fields of storage-loaded habits). -/
def jStrField (v : JVal) (k : String) : Option String :=
  match v.getField k with
  | none => none
  | some jv => if jv.truthy then some jv.asKey else none

/-- Optional non-negative integer field. -/
def jNatField (v : JVal) (k : String) : Option ℕ :=
  match v.getField k with
  | some (.num n) => some n.toNat
  | _ => none

/-- Optional boolean field. -/
def jBoolField (v : JVal) (k : String) : Option Bool :=
  match v.getField k with
  | some (.bool b) => some b
  | _ => none

/-- `Habit.fromJSON(habitData)` on a parsed JSON value: `new Habit(null)`
throws (destructuring `null`); any other value destructures, with absent
properties falling back to the constructor defaults. -/
def readHabit (hd : JVal) : Except Unit Habit :=
  match hd with
  | .null => .error ()
  | v => .ok (Habit.fromConfig 0 "habit_generated"
      { id := jStrField v "id"
        name := jStrField v "name"
        description := jStrField v "description"
        category := jStrField v "category"
        cue := jStrField v "cue"
        craving := jStrField v "craving"
        response := jStrField v "response"
        reward := jStrField v "reward"
        difficulty := jNatField v "difficulty"
        frequency := jStrField v "frequency"
        targetCount := jNatField v "targetCount"
        streak := jNatField v "streak"
        longestStreak := jNatField v "longestStreak"
        completions := (v.getField "completions").bind (fun cv =>
          match cv with
          | .arr xs => some (xs.map readCompletion)
          | _ => none)
        isActive := jBoolField v "isActive"
        createdAt := jNatField v "createdAt"
        updatedAt := jNatField v "updatedAt" })

/-- One `[id, habitData]` entry of `data.habits`: array destructuring takes
the first two positions of any iterable and `Habit.fromJSON` runs on the
second.  Arrays with fewer than two elements leave `habitData` undefined,
which `new Habit(undefined)` rejects (destructuring throws).  Strings are
also iterable, character by character: a string entry of length ≥ 2
destructures into its first two characters, and `new Habit("x")` on the
one-character string succeeds with every property undefined, so every
constructor default fires.  Any other value (null, number, boolean,
object) is not iterable and destructuring throws. -/
def readHabitEntry (x : JVal) : Except Unit (String × Habit) :=
  match x with
  | .arr (idv :: hd :: _) => do
      let h ← readHabit hd
      pure (idv.asKey, h)
  | .str s =>
      match s.toList with
      | c1 :: c2 :: _ => do
          let h ← readHabit (.str (String.mk [c2]))
          pure (toString c1, h)
      | _ => .error ()
  | _ => .error ()

/-- `if (data.habits) { this.habits = new Map(data.habits.map(...)) }`:
absent/falsy field skips (`none`); a truthy non-array has no `.map` and
throws; an array rebuilds the entries (any bad entry throws). -/
def readHabits (v : JVal) : Except Unit (Option (List (String × Habit))) :=
  match v.getField "habits" with
  | none => .ok none
  | some hv =>
      if hv.truthy then
        match hv with
        | .arr xs => do
            let entries ← xs.mapM readHabitEntry
            pure (some entries)
        | _ => .error ()
      else .ok none

/-- `if (data.categories) { this.categories = new Set(data.categories) }`:
absent/falsy skips; `new Set` accepts an array (or a string, character-wise)
and throws on any other truthy value (not iterable). -/
def readCategories (v : JVal) : Except Unit (Option (List String)) :=
  match v.getField "categories" with
  | none => .ok none
  | some cv =>
      if cv.truthy then
        match cv with
        | .arr xs => .ok (some (xs.map JVal.asKey))
        | .str s => .ok (some (s.toList.map toString))
        | _ => .error ()
      else .ok none

/-- The whole `try` body after a successful parse. -/
def readStored (v : JVal) :
    Except Unit (Option (List (String × Habit)) × Option (List String)) := do
  let hs ← readHabits v
  let cs ← readCategories v
  pure (hs, cs)

/-- `loadFromStorage()`: `raw = none` models `JSON.parse` throwing on the
stored text.  Any exception inside the `try` lands in the `catch`, which
resets `habits` to an empty map while `categories` still holds the seed set
assigned in the constructor just before loading. -/
def loadFromStorage (raw : Option JVal) : List (String × Habit) × List String :=
  match raw with
  | none => ([], seedCategories)
  | some v =>
      match readStored v with
      | .error _ => ([], seedCategories)
      | .ok (hs, cs) => (hs.getD [], cs.getD seedCategories)

/-- The `HabitTracker` constructor: start with an empty map and the seed
categories, then hydrate from storage.  Total — no exception escapes. -/
def mkTracker (raw : Option JVal) : TrackerState :=
  let loaded := loadFromStorage raw
  { habits := loaded.1, categories := loaded.2, stored := none }

/-- Malformed persisted data: the stored text does not parse, or the parsed
value makes the `try` body throw. -/
def malformedStorage (raw : Option JVal) : Bool :=
  match raw with
  | none => true
  | some v => (readStored v).toOption.isNone

/-! ## Ascending and descending day runs -/

/-- The list of `n` consecutive day numbers starting at `s`:
`[s, s+1, …, s+n-1]`. -/
def ascRun (s : ℕ) : ℕ → List ℕ
  | 0 => []
  | n + 1 => s :: ascRun (s + 1) n

/-- The list of `n` consecutive day numbers descending from `t`:
`[t, t-1, …, t-n+1]`. -/
def descRunFrom (t : ℕ) : ℕ → List ℕ
  | 0 => []
  | n + 1 => t :: descRunFrom (t - 1) n

/-! ## The completion-rate window as the specification words it

For the refinement comparison of `getCompletionRate`: the number of
completions whose calendar day lies in `[today - days, today]`, both
endpoints included at calendar-day granularity, divided by `days`, times
100.  This definition follows the specification text, not the code. -/

/-- Completion rate as specified: calendar-day window `[today - days, today]`
inclusive. -/
def specCompletionRate (nowMs days : ℕ) (h : Habit) : Option ℚ :=
  if days = 0 then none
  else
    let today := dayOf nowMs
    let inWindow := h.completions.filter (fun c =>
      decide (today - days ≤ c.date ∧ c.date ≤ today))
    some (((inWindow.length : ℚ) / (days : ℚ)) * 100)

/-! ## Concrete instances for witnesses and counterexamples -/

/-- A plain habit with no completions (the state `new Habit({id: "habit_1",
name: "read"})` would produce at instant 0). -/
def habitBase : Habit where
  id := "habit_1"
  name := "read"
  description := ""
  category := "general"
  cue := ""
  craving := ""
  response := ""
  reward := ""
  difficulty := 1
  frequency := "daily"
  targetCount := 1
  streak := 0
  longestStreak := 0
  completions := []
  isActive := true
  createdAt := 0
  updatedAt := 0

/-- A configuration object carrying `streak: 1, longestStreak: 0` (and no
other properties), as a caller may pass to the constructor. -/
def cfgStreakOne : HabitConfig where
  id := some "habit_cfg"
  name := none
  description := none
  category := none
  cue := none
  craving := none
  response := none
  reward := none
  difficulty := none
  frequency := none
  targetCount := none
  streak := some 1
  longestStreak := some 0
  completions := none
  isActive := none
  createdAt := none
  updatedAt := none

/-- A habit whose completions are the three consecutive days 1, 2, 3. -/
def habitRun3 : Habit :=
  { habitBase with completions :=
      [⟨1, 86400000, 1⟩, ⟨2, 172800000, 1⟩, ⟨3, 259200000, 1⟩] }

/-- A habit whose only completion is on day 0. -/
def habitDay0 : Habit :=
  { habitBase with completions := [⟨0, 0, 1⟩] }

/-- A habit completed on the two consecutive days 0 and 1 (every day since
its creation on day 0). -/
def habitEveryDay : Habit :=
  { habitBase with completions := [⟨0, 0, 1⟩, ⟨1, 86400000, 1⟩] }

/-- A habit created on day 1 and completed on every day since: days 1
and 2 (Jan 2 and Jan 3, 1970). -/
def habitJan23 : Habit :=
  { habitBase with
      createdAt := 86400000
      completions := [⟨1, 86400000, 1⟩, ⟨2, 172800000, 1⟩] }

/-- A stored JSON value whose `habits` property is the number 5: truthy but
without `.map`, so hydration throws and the `catch` path runs. -/
def rawBadHabits : Option JVal :=
  some (.obj [("habits", .num 5)])

/-- A stored JSON value whose `habits` array holds the string entry
`"ab"`: destructuring succeeds on the iterable string, so the program
loads one habit keyed `"a"` built from `new Habit("b")`. -/
def rawStringEntry : Option JVal :=
  some (.obj [("habits", .arr [.str "ab"])])

/-- A tracker holding one fresh active habit under id `"a"`. -/
def trackerOne : TrackerState where
  habits := [("a", habitBase)]
  categories := seedCategories
  stored := none

/-- First of three sample habits: streak 3, completed on day 9. -/
def habitA : Habit :=
  { habitBase with
      id := "a"
      streak := 3
      longestStreak := 4
      completions := [⟨9, 777600000, 1⟩] }

/-- Second of three sample habits: streak 0, not completed on day 9. -/
def habitB : Habit :=
  { habitBase with
      id := "b"
      streak := 0
      longestStreak := 2 }

/-- Third of three sample habits: streak 7, completed on day 9. -/
def habitC : Habit :=
  { habitBase with
      id := "c"
      streak := 7
      longestStreak := 7
      completions := [⟨9, 777600001, 1⟩] }

/-- A tracker with three active habits with streaks 3, 0, 7, two of them
completed on day 9. -/
def trackerThree : TrackerState where
  habits := [("a", habitA), ("b", habitB), ("c", habitC)]
  categories := seedCategories
  stored := none

/-! ## Lemmas about the sort and the runs -/

lemma length_insertByDate (c : Completion) (l : List Completion) :
    (insertByDate c l).length = l.length + 1 := by
  induction l with
  | nil => rfl
  | cons d ds ih =>
      simp only [insertByDate]
      split <;> simp [ih]

lemma mem_insertByDate {x c : Completion} {l : List Completion} :
    x ∈ insertByDate c l ↔ x = c ∨ x ∈ l := by
  induction l with
  | nil => simp [insertByDate]
  | cons d ds ih =>
      simp only [insertByDate]
      split
      · simp [or_comm, or_left_comm]
      · simp [ih, or_comm, or_left_comm]

lemma countP_insertByDate (p : Completion → Bool) (c : Completion)
    (l : List Completion) :
    (insertByDate c l).countP p = (if p c then 1 else 0) + l.countP p := by
  induction l with
  | nil => simp only [insertByDate, List.countP_cons, List.countP_nil]; omega
  | cons d ds ih =>
      simp only [insertByDate]
      split
      · simp only [List.countP_cons]
        split <;> split <;> omega
      · simp only [List.countP_cons, ih]
        split <;> split <;> omega

lemma insertByDate_eq_cons (c : Completion) (l : List Completion)
    (h : ∀ d ∈ l, c.date ≤ d.date) : insertByDate c l = c :: l := by
  cases l with
  | nil => rfl
  | cons d ds =>
      simp only [insertByDate]
      rw [if_pos (h d (by simp))]

lemma length_sortByDate (l : List Completion) :
    (sortByDate l).length = l.length := by
  induction l with
  | nil => rfl
  | cons c cs ih =>
      simp only [sortByDate, List.foldr_cons] at *
      rw [length_insertByDate, ih, List.length_cons]

lemma mem_sortByDate {x : Completion} {l : List Completion} :
    x ∈ sortByDate l ↔ x ∈ l := by
  induction l with
  | nil => simp [sortByDate]
  | cons c cs ih =>
      simp only [sortByDate, List.foldr_cons] at *
      rw [mem_insertByDate, ih]
      simp [eq_comm]

lemma countP_sortByDate (p : Completion → Bool) (l : List Completion) :
    (sortByDate l).countP p = l.countP p := by
  induction l with
  | nil => rfl
  | cons c cs ih =>
      simp only [sortByDate, List.foldr_cons] at *
      rw [countP_insertByDate, ih, List.countP_cons]
      split <;> omega

lemma sortByDate_eq_self (l : List Completion)
    (h : l.Pairwise (fun a b => a.date ≤ b.date)) : sortByDate l = l := by
  induction l with
  | nil => rfl
  | cons c cs ih =>
      rw [List.pairwise_cons] at h
      simp only [sortByDate, List.foldr_cons] at *
      rw [ih h.2, insertByDate_eq_cons c cs h.1]

lemma length_ascRun (s n : ℕ) : (ascRun s n).length = n := by
  induction n generalizing s with
  | zero => rfl
  | succ m ih => simp [ascRun, ih]

lemma mem_ascRun {x s n : ℕ} : x ∈ ascRun s n ↔ s ≤ x ∧ x < s + n := by
  induction n generalizing s with
  | zero => simp [ascRun]
  | succ m ih =>
      simp only [ascRun, List.mem_cons, ih]
      omega

lemma ascRun_pairwise_le (s n : ℕ) : (ascRun s n).Pairwise (· ≤ ·) := by
  induction n generalizing s with
  | zero => exact List.Pairwise.nil
  | succ m ih =>
      refine List.Pairwise.cons ?_ (ih (s + 1))
      intro x hx
      have := mem_ascRun.mp hx
      omega

lemma getLastD_ascRun (s n d : ℕ) (hn : 1 ≤ n) :
    (ascRun s n).getLastD d = s + n - 1 := by
  induction n generalizing s d with
  | zero => omega
  | succ m ih =>
      cases m with
      | zero => simp [ascRun]
      | succ k =>
          have : ascRun s (k + 2) = s :: ascRun (s + 1) (k + 1) := rfl
          rw [this, List.getLastD_cons, ih (s + 1) s (by omega)]
          omega

lemma getLastD_map {α β : Type} (f : α → β) (l : List α) (d : α) :
    (l.map f).getLastD (f d) = f (l.getLastD d) := by
  induction l generalizing d with
  | nil => rfl
  | cons a l ih =>
      rw [List.map_cons, List.getLastD_cons, List.getLastD_cons, ih a]

lemma getLastD_mem {α : Type} (l : List α) (d : α) (h : l ≠ []) :
    l.getLastD d ∈ l := by
  induction l generalizing d with
  | nil => exact absurd rfl h
  | cons a l ih =>
      rw [List.getLastD_cons]
      cases l with
      | nil => simp
      | cons b l' => exact List.mem_cons_of_mem a (ih b (by simp))

lemma descRunFrom_concat (t n : ℕ) :
    descRunFrom t (n + 1) = descRunFrom t n ++ [t - n] := by
  induction n generalizing t with
  | zero => rfl
  | succ m ih =>
      have h1 : descRunFrom t (m + 2) = t :: descRunFrom (t - 1) (m + 1) := rfl
      have h2 : descRunFrom t (m + 1) = t :: descRunFrom (t - 1) m := rfl
      have h3 : t - 1 - m = t - (m + 1) := by omega
      rw [h1, ih (t - 1), h2, List.cons_append, h3]

lemma reverse_ascRun (s n : ℕ) :
    (ascRun s n).reverse = descRunFrom (s + n - 1) n := by
  induction n generalizing s with
  | zero => rfl
  | succ m ih =>
      have h1 : ascRun s (m + 1) = s :: ascRun (s + 1) m := rfl
      rw [h1, List.reverse_cons, ih (s + 1)]
      have h2 : s + 1 + m - 1 = s + m := by omega
      have h3 : s + (m + 1) - 1 = s + m := by omega
      rw [h2, h3, descRunFrom_concat]
      congr 1
      simp

lemma runLenDesc_descRunFrom (n t : ℕ) (h1 : 1 ≤ n) (h2 : n ≤ t + 1) :
    runLenDesc (descRunFrom t n) = n := by
  induction n generalizing t with
  | zero => omega
  | succ m ih =>
      cases m with
      | zero => rfl
      | succ k =>
          have hsub : t - 1 - 1 = t - 2 := by omega
          have e0 : descRunFrom (t - 1) (k + 1) =
              (t - 1) :: descRunFrom (t - 2) k := by
            have : descRunFrom (t - 1) (k + 1) =
                (t - 1) :: descRunFrom (t - 1 - 1) k := rfl
            rw [this, hsub]
          have e1 : descRunFrom t (k + 2) =
              t :: (t - 1) :: descRunFrom (t - 2) k := by
            have : descRunFrom t (k + 2) =
                t :: descRunFrom (t - 1) (k + 1) := rfl
            rw [this, e0]
          rw [e1]
          have ht : 1 ≤ t := by omega
          simp only [runLenDesc]
          rw [if_pos (by omega : ((t : ℤ) - ((t - 1 : ℕ) : ℤ)) = 1)]
          rw [← e0, ih (t - 1) (by omega) (by omega)]

lemma ascRun_countP_window (M : ℕ) : ∀ s days : ℕ, days ≤ M →
    (ascRun s M).countP
      (fun d => decide (s + M ≤ d + days ∧ d + 1 ≤ s + M)) = days := by
  induction M with
  | zero =>
      intro s days hdays
      have h0 : days = 0 := by omega
      subst h0
      rfl
  | succ m ih =>
      intro s days hdays
      have hcons : ascRun s (m + 1) = s :: ascRun (s + 1) m := rfl
      rw [hcons, List.countP_cons]
      by_cases htop : days = m + 1
      · subst htop
        have hhead : (decide (s + (m + 1) ≤ s + (m + 1) ∧ s + 1 ≤ s + (m + 1))
            : Bool) = true := by
          simp
        have htail : (ascRun (s + 1) m).countP
            (fun d => decide (s + (m + 1) ≤ d + (m + 1) ∧ d + 1 ≤ s + (m + 1)))
            = m := by
          have hlen := length_ascRun (s + 1) m
          have hall : (ascRun (s + 1) m).countP
              (fun d => decide (s + (m + 1) ≤ d + (m + 1) ∧ d + 1 ≤ s + (m + 1)))
              = (ascRun (s + 1) m).length := by
            rw [List.countP_eq_length]
            intro d hd
            have := mem_ascRun.mp hd
            simp only [decide_eq_true_eq]
            omega
          rw [hall, hlen]
        rw [htail, hhead]
        simp
      · have hlt : days ≤ m := by omega
        have hhead : (decide (s + (m + 1) ≤ s + days ∧ s + 1 ≤ s + (m + 1))
            : Bool) = false := by
          simp only [decide_eq_false_iff_not]
          omega
        have hre : ∀ d : ℕ,
            (decide (s + (m + 1) ≤ d + days ∧ d + 1 ≤ s + (m + 1)) : Bool) =
            (decide ((s + 1) + m ≤ d + days ∧ d + 1 ≤ (s + 1) + m) : Bool) := by
          intro d
          have : s + (m + 1) = (s + 1) + m := by omega
          rw [this]
        simp only [hre]
        rw [ih (s + 1) days hlt]
        have hhead2 : (decide (s + 1 + m ≤ s + days ∧ s + 1 ≤ s + 1 + m)
            : Bool) = false := by
          simp only [decide_eq_false_iff_not]
          omega
        rw [hhead2]
        simp

lemma le_foldr_max (l : List ℕ) : ∀ x ∈ l, x ≤ l.foldr max 0 := by
  induction l with
  | nil => simp
  | cons a l ih =>
      intro x hx
      rcases List.mem_cons.mp hx with h | h
      · subst h
        exact le_max_left _ _
      · exact le_trans (ih x h) (le_max_right _ _)

lemma foldr_max_attained (l : List ℕ) :
    l.foldr max 0 = 0 ∨ l.foldr max 0 ∈ l := by
  induction l with
  | nil => exact Or.inl rfl
  | cons a l ih =>
      simp only [List.foldr_cons]
      rcases le_total a (l.foldr max 0) with h | h
      · rw [max_eq_right h]
        rcases ih with h0 | hm
        · exact Or.inl h0
        · exact Or.inr (List.mem_cons_of_mem a hm)
      · rw [max_eq_left h]
        exact Or.inr (List.mem_cons_self a l)

/-- The filter of `getCompletionRate` at a query instant strictly after UTC
midnight keeps exactly the completions of the `days` calendar days
`[today - days + 1, today]`. -/
lemma getCompletionRate_eq_window (nowMs days : ℕ) (h : Habit)
    (hd : days ≠ 0) (ht : nowMs % dayMs ≠ 0) :
    h.getCompletionRate nowMs days =
      some (((h.completions.countP (fun c =>
          decide (dayOf nowMs + 1 ≤ c.date + days ∧ c.date ≤ dayOf nowMs))) : ℚ)
        / (days : ℚ) * 100) := by
  unfold Habit.getCompletionRate
  rw [if_neg hd]
  have hcong : ∀ c : Completion,
      (decide ((nowMs : ℤ) - (days : ℤ) * (dayMs : ℤ) ≤ (c.date : ℤ) * (dayMs : ℤ)
        ∧ (c.date : ℤ) * (dayMs : ℤ) ≤ (nowMs : ℤ)) : Bool) =
      (decide (dayOf nowMs + 1 ≤ c.date + days ∧ c.date ≤ dayOf nowMs) : Bool) := by
    intro c
    rw [decide_eq_decide]
    unfold dayOf dayMs
    unfold dayMs at ht
    omega
  simp only [← List.countP_eq_length_filter, hcong]

/-! ## Equation lemmas for `updateStreak` and `complete` -/

lemma updateStreak_of_nonempty (today : ℕ) (h : Habit)
    (hne : h.completions ≠ []) :
    Habit.updateStreak today h =
      { h with
          completions := sortByDate h.completions
          streak :=
            if (today : ℤ) - (((sortByDate h.completions).getLastD default).date : ℤ) ≤ 1
            then runLenDesc (((sortByDate h.completions).map Completion.date).reverse)
            else 0
          longestStreak := max h.longestStreak
            (if (today : ℤ) - (((sortByDate h.completions).getLastD default).date : ℤ) ≤ 1
             then runLenDesc (((sortByDate h.completions).map Completion.date).reverse)
             else 0) } := by
  unfold Habit.updateStreak
  rw [if_neg (by simp [hne])]

lemma updateStreak_invariant (today : ℕ) (h : Habit) :
    (Habit.updateStreak today h).streak ≤ (Habit.updateStreak today h).longestStreak := by
  unfold Habit.updateStreak
  by_cases hc : h.completions.isEmpty
  · rw [if_pos (by simpa using hc)]
    simp
  · rw [if_neg (by simpa using hc)]
    exact le_max_right _ _

lemma updateStreak_mono (today : ℕ) (h : Habit) :
    h.longestStreak ≤ (Habit.updateStreak today h).longestStreak := by
  unfold Habit.updateStreak
  by_cases hc : h.completions.isEmpty
  · rw [if_pos (by simpa using hc)]
  · rw [if_neg (by simpa using hc)]
    exact le_max_left _ _

lemma complete_longest_mono (nowMs instant : ℕ) (h : Habit) :
    h.longestStreak ≤ (h.complete nowMs instant).1.longestStreak := by
  unfold Habit.complete
  by_cases hc : h.isCompletedOn (dayOf instant)
  · rw [if_pos hc]
  · rw [if_neg hc]
    exact updateStreak_mono (dayOf nowMs)
      { h with completions :=
          h.completions ++ [⟨dayOf instant, instant, 1⟩] }

/-- C1.  For every habit whose completions are exactly the `N` consecutive
calendar days ending `today` (no gaps), `updateStreak` sets `streak = N`;
and when the most recent completion lies 2 days or more before `today`,
`updateStreak` sets `streak` to 0. -/
theorem claim1_streak_continuity_and_reset (today : ℕ) (h : Habit) :
    (∀ N : ℕ, 1 ≤ N → N ≤ today + 1 →
      h.completions.map Completion.date = ascRun (today + 1 - N) N →
      (Habit.updateStreak today h).streak = N)
  ∧ (h.completions ≠ [] → (∀ c ∈ h.completions, c.date + 2 ≤ today) →
      (Habit.updateStreak today h).streak = 0) := by
  constructor
  · intro N hN hNle hdates
    have hlen : h.completions.length = N := by
      have h1 := congrArg List.length hdates
      rwa [List.length_map, length_ascRun] at h1
    have hne : h.completions ≠ [] := by
      intro hnil
      rw [hnil] at hlen
      simp at hlen
      omega
    have hpair : h.completions.Pairwise (fun a b => a.date ≤ b.date) := by
      have h1 : (h.completions.map Completion.date).Pairwise (· ≤ ·) := by
        rw [hdates]
        exact ascRun_pairwise_le _ _
      rwa [List.pairwise_map] at h1
    have hsort : sortByDate h.completions = h.completions :=
      sortByDate_eq_self _ hpair
    have hstart : today + 1 - N + N - 1 = today := by omega
    have hlast : (h.completions.getLastD default).date = today := by
      have h1 := getLastD_map Completion.date h.completions default
      rw [hdates, getLastD_ascRun _ _ _ hN, hstart] at h1
      exact h1.symm
    have hrun : runLenDesc ((h.completions.map Completion.date).reverse) = N := by
      rw [hdates, reverse_ascRun, hstart]
      exact runLenDesc_descRunFrom N today hN (by omega)
    rw [updateStreak_of_nonempty today h hne]
    simp only [hsort]
    rw [hlast]
    rw [if_pos (by omega)]
    exact hrun
  · intro hne hgap
    have hne' : sortByDate h.completions ≠ [] := by
      intro hnil
      have := congrArg List.length hnil
      rw [length_sortByDate] at this
      exact hne (List.length_eq_zero.mp this)
    have hmem : (sortByDate h.completions).getLastD default ∈ h.completions :=
      mem_sortByDate.mp (getLastD_mem _ default hne')
    have hdate := hgap _ hmem
    rw [updateStreak_of_nonempty today h hne]
    simp only
    rw [if_neg (by omega)]

lemma complete_of_completed (nowMs instant : ℕ) (h : Habit)
    (hc : h.isCompletedOn (dayOf instant) = true) :
    h.complete nowMs instant = (h, false) := by
  unfold Habit.complete
  rw [if_pos hc]

lemma complete_of_not_completed (nowMs instant : ℕ) (h : Habit)
    (hc : h.isCompletedOn (dayOf instant) = false) :
    h.complete nowMs instant =
      ({ Habit.updateStreak (dayOf nowMs)
          { h with completions :=
              h.completions ++ [⟨dayOf instant, instant, 1⟩] }
         with updatedAt := nowMs }, true) := by
  unfold Habit.complete
  rw [if_neg (by simp [hc])]

/-- C2.  Completing a habit twice on the same calendar day: starting from a
habit not yet completed on that day, the first call returns `true` and adds
exactly one completion record, the second call returns `false` and changes
nothing, and exactly one record for that day remains. -/
theorem claim2_idempotent_same_day (h : Habit) (now1 now2 d1 d2 : ℕ)
    (hday : dayOf d1 = dayOf d2)
    (hnot : h.isCompletedOn (dayOf d1) = false) :
    (h.complete now1 d1).2 = true
  ∧ (h.complete now1 d1).1.completions.length = h.completions.length + 1
  ∧ ((h.complete now1 d1).1.complete now2 d2).2 = false
  ∧ ((h.complete now1 d1).1.complete now2 d2).1 = (h.complete now1 d1).1
  ∧ (h.complete now1 d1).1.completions.countP
      (fun c => c.date == dayOf d1) = 1 := by
  have e1 : h.complete now1 d1 =
      ({ Habit.updateStreak (dayOf now1)
          { h with completions := h.completions ++ [⟨dayOf d1, d1, 1⟩] }
         with updatedAt := now1 }, true) :=
    complete_of_not_completed now1 d1 h hnot
  have hne : ({ h with completions := h.completions ++ [⟨dayOf d1, d1, 1⟩] }
      : Habit).completions ≠ [] := by simp
  have e2 : (h.complete now1 d1).1.completions =
      sortByDate (h.completions ++ [⟨dayOf d1, d1, 1⟩]) := by
    rw [e1, updateStreak_of_nonempty _ _ hne]
  have hcount0 : h.completions.countP (fun c => c.date == dayOf d1) = 0 := by
    rw [List.countP_eq_zero]
    intro c hc
    unfold Habit.isCompletedOn at hnot
    rw [List.any_eq_false] at hnot
    exact hnot c hc
  have hcount1 : (h.complete now1 d1).1.completions.countP
      (fun c => c.date == dayOf d1) = 1 := by
    rw [e2, countP_sortByDate, List.countP_append, hcount0, List.countP_cons]
    simp
  have hmem : (⟨dayOf d1, d1, 1⟩ : Completion) ∈ (h.complete now1 d1).1.completions := by
    rw [e2]
    exact mem_sortByDate.mpr (by simp)
  have hcompleted : (h.complete now1 d1).1.isCompletedOn (dayOf d2) = true := by
    rw [← hday]
    unfold Habit.isCompletedOn
    rw [List.any_eq_true]
    exact ⟨⟨dayOf d1, d1, 1⟩, hmem, by simp⟩
  have e3 : (h.complete now1 d1).1.complete now2 d2 = ((h.complete now1 d1).1, false) :=
    complete_of_completed now2 d2 _ hcompleted
  refine ⟨by rw [e1], ?_, by rw [e3], by rw [e3], hcount1⟩
  rw [e2, length_sortByDate]
  simp

/-- Witness for C2: a fresh habit completed twice at instants 1000 and 2000
(both on day 0). -/
theorem claim2_witness :
    (habitBase.complete 1000 1000).2 = true
  ∧ (habitBase.complete 1000 1000).1.completions.length =
      habitBase.completions.length + 1
  ∧ ((habitBase.complete 1000 1000).1.complete 2000 2000).2 = false
  ∧ ((habitBase.complete 1000 1000).1.complete 2000 2000).1 =
      (habitBase.complete 1000 1000).1
  ∧ (habitBase.complete 1000 1000).1.completions.countP
      (fun c => c.date == dayOf 1000) = 1 :=
  claim2_idempotent_same_day habitBase 1000 2000 1000 2000 (by decide) (by decide)

/-- C3, counterexample.  The constructor stores `streak` and
`longestStreak` from the configuration object unvalidated, so constructing
from `{streak: 1, longestStreak: 0}` violates `longestStreak >= streak`
immediately after construction. -/
theorem claim3_counterexample :
    ¬ ((Habit.fromConfig 0 "habit_1" cfgStreakOne).streak ≤
        (Habit.fromConfig 0 "habit_1" cfgStreakOne).longestStreak) := by
  decide

/-- C3, amended.  `longestStreak >= streak` holds after every streak
recomputation (hence after every successful completion, and `streak`
recomputations are the only writes the completion path makes to these
fields), and `longestStreak` never decreases across `updateStreak` or any
`complete` call; but it can fail immediately after construction from an
arbitrary configuration object, which stores both counters as given. -/
theorem claim3_amended_invariant (today nowMs instant : ℕ) (h : Habit) :
    (Habit.updateStreak today h).streak ≤ (Habit.updateStreak today h).longestStreak
  ∧ h.longestStreak ≤ (Habit.updateStreak today h).longestStreak
  ∧ h.longestStreak ≤ (h.complete nowMs instant).1.longestStreak
  ∧ ((h.complete nowMs instant).2 = true →
      (h.complete nowMs instant).1.streak ≤ (h.complete nowMs instant).1.longestStreak) := by
  refine ⟨updateStreak_invariant today h, updateStreak_mono today h,
    complete_longest_mono nowMs instant h, ?_⟩
  intro hsucc
  by_cases hc : h.isCompletedOn (dayOf instant) = true
  · rw [complete_of_completed nowMs instant h hc] at hsucc
    simp at hsucc
  · rw [complete_of_not_completed nowMs instant h (by simpa using hc)]
    exact updateStreak_invariant (dayOf nowMs) _

/-- Witness for C3's amended theorem at concrete inputs. -/
theorem claim3_amended_witness :
    (Habit.updateStreak 0 habitBase).streak ≤
      (Habit.updateStreak 0 habitBase).longestStreak
  ∧ habitBase.longestStreak ≤ (Habit.updateStreak 0 habitBase).longestStreak
  ∧ habitBase.longestStreak ≤ (habitBase.complete 1000 1000).1.longestStreak
  ∧ (habitBase.complete 1000 1000).1.streak ≤
      (habitBase.complete 1000 1000).1.longestStreak := by
  obtain ⟨a, b, c, d⟩ := claim3_amended_invariant 0 1000 1000 habitBase
  exact ⟨a, b, c, d (by decide)⟩

/-- C4.  `fromJSON(toJSON(h))` reproduces the habit exactly: every field,
the completions list, and both streak counters are taken over verbatim, and
no recomputation happens on load (the constructor never calls
`updateStreak`, so even a persisted `streak` inconsistent with
`completions` is trusted as-is).  The only proviso is that the habit's id
is a truthy string — which holds for every habit the constructor can
produce, since `this.id = id || this.generateId()`. -/
theorem claim4_roundtrip_serialization (now : ℕ) (fresh : String) (h : Habit)
    (hid : h.id ≠ "") :
    Habit.fromJSON now fresh (Habit.toJSON h) = h := by
  cases h with
  | mk id name description category cue craving response reward difficulty
      frequency targetCount streak longestStreak completions isActive
      createdAt updatedAt =>
      unfold Habit.fromJSON Habit.fromConfig Habit.toJSON
      simp only [Option.getD_some]
      simp at hid
      simp [hid]

/-- Witness for C4 at a concrete habit (id `"habit_1"`, one streak value
deliberately unrelated to its completion log). -/
theorem claim4_witness :
    Habit.fromJSON 7 "fresh_id" (Habit.toJSON habitA) = habitA :=
  claim4_roundtrip_serialization 7 "fresh_id" habitA (by decide)

/-- C5, counterexample.  The claim says the calendar day exactly `days`
days before today is counted.  At the instant `86400000 + 3600000`
(1:00 UTC on day 1) with `days = 1`, the habit completed on day 0 has its
completion excluded by the code (`startDate` keeps the time of day, and day
0's midnight is before 1:00 of day 0), so the code returns 0% where the
claimed window `[today - 1, today]` yields 100%. -/
theorem claim5_counterexample :
    habitDay0.getCompletionRate 90000000 1 ≠ specCompletionRate 90000000 1 habitDay0
  ∧ habitDay0.getCompletionRate 90000000 1 = some 0
  ∧ specCompletionRate 90000000 1 habitDay0 = some 100 := by
  have hcode : habitDay0.getCompletionRate 90000000 1 = some 0 := by
    simp only [Habit.getCompletionRate, habitDay0, habitBase, dayMs]
    norm_num [List.filter]
  have hspec : specCompletionRate 90000000 1 habitDay0 = some 100 := by
    simp only [specCompletionRate, habitDay0, habitBase, dayOf, dayMs]
    norm_num [List.filter]
  refine ⟨?_, hcode, hspec⟩
  rw [hcode, hspec]
  simp

/-- C5, amended.  For a query instant strictly after UTC midnight (every
instant except the day boundary itself), `getCompletionRate(days)` returns
the number of completions whose calendar day lies in the window
`[today - days + 1, today]` — `days` calendar days, excluding the day
exactly `days` before today — divided by `days`, times 100.  (Exactly at
midnight the lower endpoint `today - days` is included as the original
claim states.) -/
theorem claim5_amended_window (nowMs days : ℕ) (h : Habit)
    (hd : 1 ≤ days) (ht : nowMs % dayMs ≠ 0) :
    h.getCompletionRate nowMs days =
      some ((((h.completions.filter (fun c =>
          decide (dayOf nowMs + 1 ≤ c.date + days ∧ c.date ≤ dayOf nowMs))).length : ℚ)
        / (days : ℚ)) * 100) := by
  rw [getCompletionRate_eq_window nowMs days h (by omega) ht,
    List.countP_eq_length_filter]

/-- Witness for C5's amended theorem: the day-0 completion queried at
1:00 UTC on day 1 with `days = 1` is outside the window `[1, 1]`, rate 0. -/
theorem claim5_amended_witness :
    habitDay0.getCompletionRate 90000000 1 =
      some ((((habitDay0.completions.filter (fun c =>
          decide (dayOf 90000000 + 1 ≤ c.date + 1 ∧ c.date ≤ dayOf 90000000))).length : ℚ)
        / ((1 : ℕ) : ℚ)) * 100) :=
  claim5_amended_window 90000000 1 habitDay0 (by decide) (by decide)

/-- C8, counterexample.  At an exact-midnight query instant the claim
fails: the habit created on day 1 and completed on every day since (days
1 and 2), queried at `1970-01-03T00:00:00.000Z` (instant `172800000`,
today = day 2) with `days = 1 ≤ 2 = days-since-creation`, gets rate 200
from the code, not 100 — the window `[now - 86400000, now]` contains both
completion midnights because both bounds are inclusive and `now` is itself
a midnight. -/
theorem claim8_counterexample :
    habitJan23.completions.map Completion.date = ascRun 1 (dayOf 172800000 + 1 - 1)
  ∧ (1 : ℕ) ≤ dayOf 172800000 + 1 - 1
  ∧ habitJan23.getCompletionRate 172800000 1 = some 200
  ∧ habitJan23.getCompletionRate 172800000 1 ≠ some 100 := by
  have hrate : habitJan23.getCompletionRate 172800000 1 = some 200 := by
    simp only [Habit.getCompletionRate, habitJan23, habitBase, dayMs]
    norm_num [List.filter]
  refine ⟨by decide, by decide, hrate, ?_⟩
  rw [hrate]
  simp

/-- C8, amended.  A habit completed on every calendar day since its
creation (day `C` through today), queried with
`1 ≤ days ≤ days-since-creation` at any instant strictly after UTC
midnight, has a completion on each of the `days` days of the window, so
the rate is exactly 100.  (Exactly at the midnight instant the inclusive
window gains the day `days` days before today, and the rate is
`(days+1)/days × 100` whenever `days` is strictly less than
days-since-creation.) -/
theorem claim8_perfect_rate (nowMs days C : ℕ) (h : Habit)
    (hd : 1 ≤ days) (ht : nowMs % dayMs ≠ 0)
    (hC : C ≤ dayOf nowMs)
    (hdates : h.completions.map Completion.date = ascRun C (dayOf nowMs + 1 - C))
    (hspan : days ≤ dayOf nowMs + 1 - C) :
    h.getCompletionRate nowMs days = some 100 := by
  rw [getCompletionRate_eq_window nowMs days h (by omega) ht]
  have hcomp : h.completions.countP (fun c =>
      decide (dayOf nowMs + 1 ≤ c.date + days ∧ c.date ≤ dayOf nowMs)) =
      (h.completions.map Completion.date).countP (fun d =>
        decide (dayOf nowMs + 1 ≤ d + days ∧ d ≤ dayOf nowMs)) := by
    rw [List.countP_map]
    rfl
  have hM : C + (dayOf nowMs + 1 - C) = dayOf nowMs + 1 := by omega
  have hcong : ∀ d : ℕ,
      (decide (dayOf nowMs + 1 ≤ d + days ∧ d ≤ dayOf nowMs) : Bool) =
      (decide (C + (dayOf nowMs + 1 - C) ≤ d + days
        ∧ d + 1 ≤ C + (dayOf nowMs + 1 - C)) : Bool) := by
    intro d
    rw [decide_eq_decide]
    omega
  rw [hcomp, hdates]
  simp only [hcong]
  rw [ascRun_countP_window (dayOf nowMs + 1 - C) C days hspan]
  have hne : ((days : ℚ)) ≠ 0 := by
    exact_mod_cast Nat.one_le_iff_ne_zero.mp hd
  rw [div_self hne]
  norm_num

/-- Witness for C8: completions on days 0 and 1 (creation day 0), queried
at 1:00 UTC on day 1 with `days = 2`, give exactly 100%. -/
theorem claim8_witness :
    habitEveryDay.getCompletionRate 90000000 2 = some 100 :=
  claim8_perfect_rate 90000000 2 0 habitEveryDay (by decide) (by decide)
    (by decide) (by decide) (by decide)

/-- A 2-character string entry in the `habits` array is not malformed: the
program destructures the iterable string and loads one habit keyed by its
first character (so `malformedStorage` matches the program's throw set on
this shape, and the recovery theorem does not apply to it). -/
lemma loadFromStorage_string_entry :
    malformedStorage rawStringEntry = false
  ∧ ((loadFromStorage rawStringEntry).1.map Prod.fst) = ["a"] := by
  constructor <;> rfl

/-- C6.  Loading malformed persisted data — text that does not parse, or a
parsed value on which hydration throws — leaves the tracker with an empty
habit collection and the default seed category set.  (`loadFromStorage` is
a total function: the `catch` swallows every exception, so none propagates
out of construction.) -/
theorem claim6_corrupt_storage_recovery (raw : Option JVal)
    (hm : malformedStorage raw = true) :
    (mkTracker raw).habits = [] ∧ (mkTracker raw).categories = seedCategories := by
  have hload : loadFromStorage raw = ([], seedCategories) := by
    cases raw with
    | none => rfl
    | some v =>
        have hm' : (readStored v).toOption.isNone = true := by
          simpa [malformedStorage] using hm
        cases hres : readStored v with
        | error e => simp [loadFromStorage, hres]
        | ok x =>
            rw [hres] at hm'
            simp [Except.toOption] at hm'
  constructor <;> simp [mkTracker, hload]

/-- Witness for C6: a stored object whose `habits` property is the number 5
(truthy, but `.map` is not a function on it). -/
theorem claim6_witness :
    malformedStorage rawBadHabits = true
  ∧ (mkTracker rawBadHabits).habits = []
  ∧ (mkTracker rawBadHabits).categories = seedCategories :=
  ⟨rfl, (claim6_corrupt_storage_recovery rawBadHabits rfl).1,
    (claim6_corrupt_storage_recovery rawBadHabits rfl).2⟩

/-- C7.  `completeHabit(id, date)` returns `true` (and persists the updated
collection into the storage slot) exactly when a habit with that id exists
and is not yet completed on that calendar day; otherwise it returns `false`
and leaves the whole tracker state — including the storage slot —
unchanged. -/
theorem claim7_completeHabit_spec (nowMs instant : ℕ) (id : String)
    (t : TrackerState) :
    ((t.completeHabit nowMs instant id).2 = true ↔
      ∃ h, t.habits.lookup id = some h ∧ h.isCompletedOn (dayOf instant) = false)
  ∧ ((t.completeHabit nowMs instant id).2 = false →
      (t.completeHabit nowMs instant id).1 = t)
  ∧ ((t.completeHabit nowMs instant id).2 = true →
      (t.completeHabit nowMs instant id).1.stored =
        some (serializeTracker (t.completeHabit nowMs instant id).1)) := by
  unfold TrackerState.completeHabit
  cases hlk : t.habits.lookup id with
  | none =>
      refine ⟨by simp, by intro _; rfl, by simp⟩
  | some h =>
      by_cases hc : h.isCompletedOn (dayOf instant) = true
      · simp only [complete_of_completed nowMs instant h hc]
        refine ⟨by simp [hc], by intro _; rfl, by simp⟩
      · have hc' : h.isCompletedOn (dayOf instant) = false := by
          simpa using hc
        simp only [complete_of_not_completed nowMs instant h hc']
        refine ⟨by simp [hc'], by simp, ?_⟩
        intro _
        rfl

/-- Witness for C7: the sample tracker with one fresh habit under id `"a"`,
completed at instant 1000.  The call succeeds and persists the updated
collection. -/
theorem claim7_witness :
    (trackerOne.completeHabit 1000 1000 "a").2 = true
  ∧ (trackerOne.completeHabit 1000 1000 "a").1.stored =
      some (serializeTracker (trackerOne.completeHabit 1000 1000 "a").1) := by
  obtain ⟨hiff, _, hpersist⟩ := claim7_completeHabit_spec 1000 1000 "a" trackerOne
  have hsucc : (trackerOne.completeHabit 1000 1000 "a").2 = true :=
    hiff.mpr ⟨habitBase, by decide, by decide⟩
  exact ⟨hsucc, hpersist hsucc⟩

/-- C9.  `getOverallStats` aggregates over exactly the active habits:
their count, how many are completed today, the completion rate
`completedToday/totalHabits × 100` (0 with no active habits), the
arithmetic mean of their `streak` values (0 with none), and the maximum of
their `longestStreak` values (an upper bound that is attained, or 0 with
none). -/
theorem claim9_overall_stats (today : ℕ) (t : TrackerState) :
    (t.getOverallStats today).totalHabits = t.getActiveHabits.length
  ∧ (t.getOverallStats today).completedToday =
      t.getActiveHabits.countP (fun h => h.isCompletedOn today)
  ∧ (t.getOverallStats today).completionRateToday =
      (if t.getActiveHabits.length = 0 then 0
       else ((t.getActiveHabits.countP (fun h => h.isCompletedOn today) : ℚ)
          / (t.getActiveHabits.length : ℚ)) * 100)
  ∧ (t.getOverallStats today).averageStreak =
      (if t.getActiveHabits.length = 0 then 0
       else ((t.getActiveHabits.map Habit.streak).sum : ℚ)
          / (t.getActiveHabits.length : ℚ))
  ∧ (∀ h ∈ t.getActiveHabits,
      h.longestStreak ≤ (t.getOverallStats today).longestStreak)
  ∧ ((t.getOverallStats today).longestStreak = 0
      ∨ ∃ h ∈ t.getActiveHabits,
          (t.getOverallStats today).longestStreak = h.longestStreak) := by
  simp only [TrackerState.getOverallStats]
  refine ⟨by trivial, by simp [List.countP_eq_length_filter], ?_, ?_, ?_, ?_⟩
  · rcases Nat.eq_zero_or_pos t.getActiveHabits.length with h0 | hpos
    · simp [h0]
    · simp only [List.countP_eq_length_filter]
      rw [if_pos hpos, if_neg (by omega)]
  · rcases Nat.eq_zero_or_pos t.getActiveHabits.length with h0 | hpos
    · simp [h0]
    · rw [if_pos hpos, if_neg (by omega)]
  · intro h hh
    exact le_foldr_max _ _ (List.mem_map_of_mem Habit.longestStreak hh)
  · rcases foldr_max_attained (t.getActiveHabits.map Habit.longestStreak)
        with h0 | hmem
    · exact Or.inl h0
    · rcases List.mem_map.mp hmem with ⟨h, hh, he⟩
      exact Or.inr ⟨h, hh, he.symm⟩

/-- C10.  `getCompletionRate` divides by `days` unguarded: with `days = 0`
the JS result is the non-finite `NaN`/`Infinity` (modelled `none`), so a
well-defined numeric percentage is returned exactly under the precondition
`days ≥ 1`. -/
theorem claim10_zero_days_unguarded (nowMs days : ℕ) (h : Habit) :
    h.getCompletionRate nowMs 0 = none
  ∧ (1 ≤ days → (h.getCompletionRate nowMs days).isSome = true) := by
  constructor
  · unfold Habit.getCompletionRate
    rw [if_pos rfl]
  · intro hd
    unfold Habit.getCompletionRate
    rw [if_neg (by omega)]
    rfl

/-- Witness for C10 at `days = 0` and `days = 30`. -/
theorem claim10_witness :
    habitBase.getCompletionRate 1000 0 = none
  ∧ (habitBase.getCompletionRate 1000 30).isSome = true := by
  obtain ⟨a, b⟩ := claim10_zero_days_unguarded 1000 30 habitBase
  exact ⟨a, b (by decide)⟩

/-- Witness for C1 at concrete inputs: completions on days 1, 2, 3 with
`today = 3` give streak 3; a single completion on day 0 with `today = 2`
gives streak 0. -/
theorem claim1_witness :
    (Habit.updateStreak 3 habitRun3).streak = 3
  ∧ (Habit.updateStreak 2 habitDay0).streak = 0 := by
  constructor
  · exact (claim1_streak_continuity_and_reset 3 habitRun3).1 3 (by decide)
      (by decide) (by decide)
  · exact (claim1_streak_continuity_and_reset 2 habitDay0).2 (by decide)
      (by decide)

